import Mathlib

/-!
Verification of the process-supervisor script `run.py`.

File contents are modelled as `List Char`; the state file is an
`Option (List Char)` (`none` when the file does not exist).  Python
dictionaries are modelled as insertion-ordered association lists.
-/

/-- Whitespace characters stripped by Python's `str.strip`. -/
def isWS (c : Char) : Bool :=
  c = ' ' || c = '\t' || c = '\n' || c = '\r' || c = '\x0b' || c = '\x0c'

/-- Python's `str.strip`: drop leading and trailing whitespace. -/
def pyStrip (l : List Char) : List Char :=
  ((l.dropWhile isWS).reverse.dropWhile isWS).reverse

/-- Python's `str.split(sep)` for a one-character separator: split on every
occurrence, keeping empty pieces. -/
def splitChar (c : Char) : List Char → List (List Char)
  | [] => [[]]
  | x :: xs =>
    if x = c then [] :: splitChar c xs
    else
      (x :: (splitChar c xs).headI) :: (splitChar c xs).tail

/-- Insertion into an insertion-ordered dictionary, as Python's
`d[k] = v`: an existing key keeps its position, a new key is appended. -/
def dictInsert (d : List (List Char × Int)) (k : List Char) (v : Int) :
    List (List Char × Int) :=
  match d with
  | [] => [(k, v)]
  | (k', v') :: rest => if k' = k then (k, v) :: rest else (k', v') :: dictInsert rest k v

/-- Dictionary lookup, as Python's `k in d` / `d[k]`. -/
def lookupD (d : List (List Char × Int)) (k : List Char) : Option Int :=
  match d with
  | [] => none
  | (k', v') :: rest => if k' = k then some v' else lookupD rest k

/-- Numeric value of a decimal digit character. -/
def digitVal (c : Char) : Nat := c.toNat - 48

/-- Fold step accumulating the value of a digit string, skipping the
underscore separators Python's `int` permits. -/
def digitFold (a : Nat) (c : Char) : Nat :=
  if c = '_' then a else 10 * a + digitVal c

/-- Adjacent underscores are rejected by Python's `int`. -/
def noDoubleUnderscore : List Char → Bool
  | c1 :: c2 :: rest => !(c1 = '_' && c2 = '_') && noDoubleUnderscore (c2 :: rest)
  | _ => true

/-- Validity of the digit part of a Python integer literal: nonempty,
digits with single underscores strictly between digits. -/
def pyDigitsOk (l : List Char) : Bool :=
  (match l with | [] => false | c :: _ => c.isDigit) &&
  (match l.getLast? with | some c => c.isDigit | none => false) &&
  l.all (fun c => c.isDigit || c = '_') &&
  noDoubleUnderscore l

/-- Python's `int(s)` on a string: strip whitespace, optional sign, decimal
digits (underscores allowed between digits); `none` models `ValueError`. -/
def pyIntOfChars (l : List Char) : Option Int :=
  match pyStrip l with
  | [] => none
  | c :: rest =>
    if c = '+' then
      if pyDigitsOk rest then some ((rest.foldl digitFold 0 : Nat) : Int) else none
    else if c = '-' then
      if pyDigitsOk rest then some (-((rest.foldl digitFold 0 : Nat) : Int)) else none
    else
      if pyDigitsOk (c :: rest) then
        some (((c :: rest).foldl digitFold 0 : Nat) : Int)
      else none

/-- The loop body of `get_running_pids` in `run.py`: process the lines in
order; a line without an equals sign is skipped; a line with an equals sign
is split and parsed, and any failure (unpacking into other than two parts,
or a non-integer PID field) raises an exception that the surrounding
`try`/`except` turns into returning the entries accumulated so far. -/
def parseLines : List (List Char) → List (List Char × Int) → List (List Char × Int)
  | [], acc => acc
  | l :: ls, acc =>
    if '=' ∈ pyStrip l then
      match splitChar '=' (pyStrip l) with
      | [name, pidStr] =>
        match pyIntOfChars pidStr with
        | some v => parseLines ls (dictInsert acc name v)
        | none => acc
      | _ => acc
    else parseLines ls acc

/-- `get_running_pids` from `run.py`: missing file yields the empty
mapping, otherwise the file's lines are parsed by the loop above. -/
def get_running_pids (file : Option (List Char)) : List (List Char × Int) :=
  match file with
  | none => []
  | some contents => parseLines (splitChar '\n' contents) []

/-- Decimal digit character for a value below ten. -/
def digitChar (d : Nat) : Char :=
  if d = 0 then '0' else if d = 1 then '1' else if d = 2 then '2'
  else if d = 3 then '3' else if d = 4 then '4' else if d = 5 then '5'
  else if d = 6 then '6' else if d = 7 then '7' else if d = 8 then '8' else '9'

/-- Fuel-driven digit expansion; `natRepr` supplies enough fuel that the
base case is reached only for values below ten. -/
def natReprAux : Nat → Nat → List Char
  | 0, n => [digitChar (n % 10)]
  | fuel + 1, n =>
    if n < 10 then [digitChar n]
    else natReprAux fuel (n / 10) ++ [digitChar (n % 10)]

/-- Decimal representation of a natural number, most significant digit
first, as Python formats a non-negative integer. -/
def natRepr (n : Nat) : List Char := natReprAux n n

/-- Decimal representation of an integer, as Python's `f"{pid}"`. -/
def intRepr (v : Int) : List Char :=
  if v < 0 then '-' :: natRepr (-v).toNat else natRepr v.toNat

/-- One line written by `save_pids`: `f"{name}={pid}\n"`. -/
def pidLine (name : List Char) (v : Int) : List Char :=
  name ++ '=' :: intRepr v ++ ['\n']

/-- The complete contents written by `save_pids` in `run.py`. -/
def save_pids (pids : List (List Char × Int)) : List Char :=
  (pids.map fun e => pidLine e.1 e.2).foldr (· ++ ·) []

/-- The observable file states while `save_pids` runs, after the
truncating `open(..., 'w')`: first the empty file, then the file after
each successive line write. -/
def writeStates : List (List Char × Int) → List Char → List (List Char)
  | [], acc => [acc]
  | e :: rest, acc => acc :: writeStates rest (acc ++ pidLine e.1 e.2)

/-- All observable file states around a call to `save_pids`: the previous
contents (before the truncating open), then every intermediate state of
the in-place rewrite. -/
def saveStates (prev : List Char) (pids : List (List Char × Int)) : List (List Char) :=
  prev :: writeStates pids []

/-- The name of the backend service as a character list. -/
def backendName : List Char := ['b', 'a', 'c', 'k', 'e', 'n', 'd']

/-- The name of the frontend service as a character list. -/
def frontendName : List Char := ['f', 'r', 'o', 'n', 't', 'e', 'n', 'd']

/-- Backend TCP port from the configuration block of `run.py`. -/
def BACKEND_PORT : Nat := 3001

/-- Frontend TCP port from the configuration block of `run.py`. -/
def FRONTEND_PORT : Nat := 8080

/-- `is_port_in_use` from `run.py`: the TCP-connect probe, modelled
against the set of ports that currently accept connections. -/
def is_port_in_use (busy : List Nat) (port : Nat) : Bool := port ∈ busy

/-- Errors raised by the OS signal interface. -/
inductive KillErr where
  | noSuchProcess
  | permissionDenied
deriving DecidableEq

/-- State of the host's process table, as the spec describes the OS
collaborator: the live process identifiers, the processes the supervisor
may not signal, the processes that catch and survive the graceful
termination signal, and the processes that will exit on their own between
a liveness probe and the following signal. -/
structure OSState where
  alive : List Int
  denied : List Int
  catchesTerm : List Int
  vanishing : List Int
deriving DecidableEq

/-- The signal-0 existence probe `os.kill(pid, 0)`, modelled from the
spec's Liveness Checker: success exactly when the identifier denotes a
live process the supervisor may signal; identifiers that denote no live
process (including zero and negative values) raise no-such-process, and
foreign processes raise permission-denied. -/
def kill0 (st : OSState) (pid : Int) : Except KillErr Unit :=
  if 0 < pid ∧ pid ∈ st.alive then
    if pid ∈ st.denied then .error .permissionDenied else .ok ()
  else .error .noSuchProcess

/-- `is_process_running` from `run.py`: the probe's success as a Boolean,
with every `OSError` collapsed to `false`. -/
def is_process_running (st : OSState) (pid : Int) : Bool :=
  match kill0 st pid with
  | .ok _ => true
  | .error _ => false

/-- Removal of a process from the live table once it has been killed or
has exited. -/
def removePid (st : OSState) (pid : Int) : OSState :=
  { st with alive := st.alive.filter (· ≠ pid) }

/-- Signals deliverable to a process group. -/
inductive Sig where
  | term
  | kill
deriving DecidableEq

/-- `os.killpg(os.getpgid(pid), sig)`: raises no-such-process when the
process is gone, permission-denied when it is not ours to signal; a
delivered SIGTERM kills the group unless the process catches it, a
delivered SIGKILL always kills it. -/
def killpg (st : OSState) (pid : Int) (sig : Sig) : Except KillErr OSState :=
  if ¬ (0 < pid ∧ pid ∈ st.alive) then .error .noSuchProcess
  else if pid ∈ st.denied then .error .permissionDenied
  else
    .ok (match sig with
      | .term => if pid ∈ st.catchesTerm then st else removePid st pid
      | .kill => removePid st pid)

/-- `stop_process` from `run.py`: if the liveness probe fails, report
already-stopped and succeed; otherwise SIGTERM the process group, wait,
SIGKILL it if still alive.  A `ProcessLookupError` (the process vanished
between the probe and the signal) is reported as already-stopped and
succeeds; any other exception reports failure.  Returns the reported
success together with the resulting process table. -/
def stop_process (st : OSState) (name : List Char) (pid : Int) : Bool × OSState :=
  if ¬ is_process_running st pid then (true, st)
  else
    let st0 := if pid ∈ st.vanishing then removePid st pid else st
    match killpg st0 pid .term with
    | .error .noSuchProcess => (true, st0)
    | .error .permissionDenied => (false, st0)
    | .ok st1 =>
      if is_process_running st1 pid then
        match killpg st1 pid .kill with
        | .error .noSuchProcess => (true, st1)
        | .error .permissionDenied => (false, st1)
        | .ok st2 => (true, st2)
      else (true, st1)

/-- Observable actions of the launch commands. -/
inductive Event where
  | backendAttempt
  | backendPortConflict
  | npmInstall
  | backendSpawn
  | frontendAttempt
  | frontendPortConflict
  | frontendSpawn
deriving DecidableEq

/-- Environment a `start`/`dev` invocation runs in: the busy ports, the
state of the dependency cache, whether the dependency install would
succeed, whether each spawned server is still alive after its settle
delay, and the PIDs the OS would assign. -/
structure StartEnv where
  busyPorts : List Nat
  nodeModulesPresent : Bool
  npmInstallOk : Bool
  backendSettles : Bool
  frontendSettles : Bool
  backendPid : Int
  frontendPid : Int
deriving DecidableEq

/-- Result of `start_backend`: the PID on success, the observable events,
and whether a failed `npm install` aborted the whole command
(`subprocess.run(..., check=True)` raising). -/
structure BackendLaunch where
  pid : Option Int
  events : List Event
  fatal : Bool
deriving DecidableEq

/-- `start_backend` from `run.py`: abort with no spawn when the backend
port is busy; install dependencies when absent (fatal on failure); spawn
and report the PID only if the process survives the settle delay. -/
def start_backend (env : StartEnv) : BackendLaunch :=
  if is_port_in_use env.busyPorts BACKEND_PORT then
    ⟨none, [.backendAttempt, .backendPortConflict], false⟩
  else if env.nodeModulesPresent = false ∧ env.npmInstallOk = false then
    ⟨none, [.backendAttempt, .npmInstall], true⟩
  else
    let evs := [Event.backendAttempt] ++
      (if env.nodeModulesPresent then [] else [Event.npmInstall]) ++ [Event.backendSpawn]
    if env.backendSettles then ⟨some env.backendPid, evs, false⟩ else ⟨none, evs, false⟩

/-- Result of `start_frontend`. -/
structure FrontendLaunch where
  pid : Option Int
  events : List Event
deriving DecidableEq

/-- `start_frontend` from `run.py`: abort with no spawn when the frontend
port is busy; otherwise spawn and report the PID only if the process
survives the settle delay. -/
def start_frontend (env : StartEnv) : FrontendLaunch :=
  if is_port_in_use env.busyPorts FRONTEND_PORT then
    ⟨none, [.frontendAttempt, .frontendPortConflict]⟩
  else if env.frontendSettles then
    ⟨some env.frontendPid, [.frontendAttempt, .frontendSpawn]⟩
  else ⟨none, [.frontendAttempt, .frontendSpawn]⟩

/-- Result of `cmd_start`: the state file after the command, the events,
the PID mapping built this invocation, and whether a dependency-install
failure aborted the command. -/
structure StartRes where
  file : Option (List Char)
  events : List Event
  pids : List (List Char × Int)
  fatal : Bool
deriving DecidableEq

/-- `cmd_start` from `run.py`: launch the backend, then the frontend,
collect whichever PIDs succeeded, and save them — but only when the
mapping is non-empty (`if pids: save_pids(pids)`). -/
def cmd_start (env : StartEnv) (fs : Option (List Char)) : StartRes :=
  let b := start_backend env
  if b.fatal then ⟨fs, b.events, [], true⟩
  else
    let f := start_frontend env
    let pids0 := match b.pid with
      | some p => dictInsert [] backendName p
      | none => []
    let pids := match f.pid with
      | some p => dictInsert pids0 frontendName p
      | none => pids0
    ⟨if pids.isEmpty then fs else some (save_pids pids), b.events ++ f.events, pids, false⟩

/-- `cmd_stop` from `run.py`: load the PID table; when empty, only port
diagnostics happen and the file is untouched; otherwise every tracked
entry is passed to `stop_process` and the file is deleted regardless of
the individual outcomes. -/
def cmd_stop (st : OSState) (fs : Option (List Char)) : OSState × Option (List Char) :=
  let pids := get_running_pids fs
  if pids.isEmpty then (st, fs)
  else
    (pids.foldl (fun s e => (stop_process s e.1 e.2).2) st, none)

/-- Per-service report of `cmd_status`. -/
inductive ServiceStatus where
  | running (pid : Int)
  | portInUse
  | stopped
deriving DecidableEq

/-- One service's block of `cmd_status` in `run.py`: running when tracked
and alive, else port-in-use when the port is busy, else stopped. -/
def statusOf (st : OSState) (pids : List (List Char × Int)) (name : List Char)
    (portBusy : Bool) : ServiceStatus :=
  match lookupD pids name with
  | some p =>
    if is_process_running st p then .running p
    else if portBusy then .portInUse else .stopped
  | none => if portBusy then .portInUse else .stopped

/-- The Boolean condition `name in pids and is_process_running(pids[name])`
of `cmd_status`. -/
def trackedAlive (st : OSState) (pids : List (List Char × Int)) (name : List Char) : Bool :=
  match lookupD pids name with
  | some p => is_process_running st p
  | none => false

/-- `cmd_status` from `run.py`: the backend and frontend reports. -/
def cmd_status (st : OSState) (fs : Option (List Char)) (busy : List Nat) :
    ServiceStatus × ServiceStatus :=
  let pids := get_running_pids fs
  (statusOf st pids backendName (is_port_in_use busy BACKEND_PORT),
   statusOf st pids frontendName (is_port_in_use busy FRONTEND_PORT))

/-- Result of the launch phase of `cmd_dev`. -/
structure DevRes where
  file : Option (List Char)
  events : List Event
  pids : List (List Char × Int)
deriving DecidableEq

/-- The launch phase of `cmd_dev` from `run.py`: start the frontend in
the background and save the table — only when the frontend launch
succeeded (`if frontend_pid: ... save_pids(pids)`); the backend then runs
in the foreground and is never tracked. -/
def cmd_dev (env : StartEnv) (fs : Option (List Char)) : DevRes :=
  let f := start_frontend env
  let pids := match f.pid with
    | some p => dictInsert [] frontendName p
    | none => []
  ⟨if pids.isEmpty then fs else some (save_pids pids), f.events, pids⟩

/-- Whether a line contains an equals sign after stripping. -/
def hasEq (l : List Char) : Bool := decide ('=' ∈ pyStrip l)

/-- The `name=integer` parse of one line: defined exactly when the
stripped line splits at `=` into two parts whose second parses as a
Python integer. -/
def parseEntry (l : List Char) : Option (List Char × Int) :=
  match splitChar '=' (pyStrip l) with
  | [n, p] => Option.map (fun v => (n, v)) (pyIntOfChars p)
  | _ => none

/-- A line the claimed loader keeps scanning past: either it lacks an
equals sign, or it parses as `name=integer`. -/
def lineOK (l : List Char) : Bool := !hasEq l || (parseEntry l).isSome

/-- The entry a line contributes under the claimed loader. -/
def lineEntry (l : List Char) : Option (List Char × Int) :=
  if hasEq l then parseEntry l else none

/-- The loader as the claim describes it: take lines up to (and not
including) the first line that has an equals sign but fails to parse,
silently skip the lines without an equals sign, and accumulate the parsed
entries of the rest into the mapping. -/
def specLoad (file : Option (List Char)) : List (List Char × Int) :=
  match file with
  | none => []
  | some c =>
    (((splitChar '\n' c).takeWhile lineOK).filterMap lineEntry).foldl
      (fun d e => dictInsert d e.1 e.2) []

/-- The part of a serialized `save_pids` line before its newline. -/
def entryBody (name : List Char) (v : Int) : List Char := name ++ '=' :: intRepr v

/-- The liveness probe succeeds exactly on live, signalable, positive
identifiers. -/
lemma is_process_running_true (st : OSState) (pid : Int) :
    is_process_running st pid = true ↔ (0 < pid ∧ pid ∈ st.alive ∧ pid ∉ st.denied) := by
  unfold is_process_running kill0
  by_cases h1 : 0 < pid ∧ pid ∈ st.alive
  · by_cases h2 : pid ∈ st.denied
    · simp [h1, h2]
    · simp [h1, h2]
  · simp [h1]
    tauto

/-- A process removed from the live table no longer probes as running. -/
lemma is_process_running_removePid (st : OSState) (pid : Int) :
    is_process_running (removePid st pid) pid = false := by
  have h : ¬ (0 < pid ∧ pid ∈ (removePid st pid).alive) := by
    simp [removePid, List.mem_filter]
  unfold is_process_running kill0
  simp [h]

/-- After `stop_process` returns, the targeted process never probes as
running: every reachable branch leaves it out of the live table (or it
was already gone). -/
lemma stop_process_kills (st : OSState) (name : List Char) (pid : Int) :
    is_process_running (stop_process st name pid).2 pid = false := by
  cases hp : is_process_running st pid with
  | false => simp [stop_process, hp]
  | true =>
    obtain ⟨hpos, halive, hden⟩ := (is_process_running_true st pid).mp hp
    by_cases hv : pid ∈ st.vanishing
    · have hrem : killpg (removePid st pid) pid .term = .error .noSuchProcess := by
        have h : ¬ (0 < pid ∧ pid ∈ (removePid st pid).alive) := by
          simp [removePid, List.mem_filter]
        unfold killpg
        simp [h]
      simp [stop_process, hp, hv, hrem, is_process_running_removePid]
    · have hterm : killpg st pid .term =
          .ok (if pid ∈ st.catchesTerm then st else removePid st pid) := by
        unfold killpg
        simp [hpos, halive, hden]
      by_cases hc : pid ∈ st.catchesTerm
      · have hkill : killpg st pid .kill = .ok (removePid st pid) := by
          unfold killpg
          simp [hpos, halive, hden]
        simp [stop_process, hp, hv, hterm, hc, hkill, is_process_running_removePid]
      · simp [stop_process, hp, hv, hterm, hc, is_process_running_removePid]

/-- C4: stopping the same (name, pid) twice in succession is idempotent:
whatever the first call did, the second call reports success, because
after the first call the PID no longer probes as running and the second
call takes the already-stopped branch. -/
theorem c4_theorem (st : OSState) (n1 n2 : List Char) (pid : Int) :
    (stop_process (stop_process st n1 pid).2 n2 pid).1 = true := by
  have h := stop_process_kills st n1 pid
  generalize hY : (stop_process st n1 pid).2 = Y at h
  simp [stop_process, h]

/-- C5: the liveness check returns false for every identifier whose
signal-0 probe errors — in particular for identifiers that are not in
the live table, for never-valid identifiers (zero or negative), and for
processes the supervisor may not signal. -/
theorem c5_theorem (st : OSState) (pid : Int) :
    (∀ e, kill0 st pid = Except.error e → is_process_running st pid = false) ∧
    ((pid ≤ 0 ∨ pid ∉ st.alive ∨ pid ∈ st.denied) → is_process_running st pid = false) := by
  constructor
  · intro e he
    simp [is_process_running, he]
  · intro h
    unfold is_process_running kill0
    rcases h with h | h | h
    · have hc : ¬ (0 < pid ∧ pid ∈ st.alive) := by
        intro hx
        omega
      simp [hc]
    · have hc : ¬ (0 < pid ∧ pid ∈ st.alive) := fun hx => h hx.2
      simp [hc]
    · by_cases ha : 0 < pid ∧ pid ∈ st.alive
      · simp [ha, h]
      · simp [ha]

/-- Witness for C5: the never-valid identifier 0 probes as not running. -/
theorem c5_witness : is_process_running ⟨[], [], [], []⟩ 0 = false :=
  (c5_theorem ⟨[], [], [], []⟩ 0).2 (Or.inl (by decide))

/-- C6: each managed service is reported with the three-way precedence of
`cmd_status`: running when tracked in the loaded table with a live PID,
otherwise port-in-use when its port is busy, otherwise stopped. -/
theorem c6_theorem (st : OSState) (fs : Option (List Char)) (name : List Char) (pb : Bool) :
    (∀ p, lookupD (get_running_pids fs) name = some p → is_process_running st p = true →
      statusOf st (get_running_pids fs) name pb = ServiceStatus.running p) ∧
    (trackedAlive st (get_running_pids fs) name = false → pb = true →
      statusOf st (get_running_pids fs) name pb = ServiceStatus.portInUse) ∧
    (trackedAlive st (get_running_pids fs) name = false → pb = false →
      statusOf st (get_running_pids fs) name pb = ServiceStatus.stopped) := by
  refine ⟨?_, ?_, ?_⟩
  · intro p hl ha
    simp [statusOf, hl, ha]
  · intro ht hpb
    unfold trackedAlive at ht
    unfold statusOf
    cases hl : lookupD (get_running_pids fs) name with
    | none => simp [hpb]
    | some p =>
      rw [hl] at ht
      have ht2 : is_process_running st p = false := ht
      simp [ht2, hpb]
  · intro ht hpb
    unfold trackedAlive at ht
    unfold statusOf
    cases hl : lookupD (get_running_pids fs) name with
    | none => simp [hpb]
    | some p =>
      rw [hl] at ht
      have ht2 : is_process_running st p = false := ht
      simp [ht2, hpb]

/-- Witness for C6 (the spec's scenario): the file records `backend=1234`,
PID 1234 is not alive, the backend port is free — reported stopped. -/
theorem c6_witness :
    statusOf ⟨[], [], [], []⟩ (get_running_pids (some "backend=1234".data)) backendName false =
      ServiceStatus.stopped :=
  (c6_theorem ⟨[], [], [], []⟩ (some "backend=1234".data) backendName false).2.2 (by decide) rfl

/-- C9: loading a missing state file yields the empty mapping (and, the
loader being a total function, no error). -/
theorem c9_theorem : get_running_pids none = [] := rfl

/-- A line that parses as `name=integer` contributes its entry and the
scan continues. -/
lemma parseLines_cons_good (l : List Char) (ls : List (List Char))
    (acc : List (List Char × Int)) (n : List Char) (p : Int)
    (he : hasEq l = true) (hp : parseEntry l = some (n, p)) :
    parseLines (l :: ls) acc = parseLines ls (dictInsert acc n p) := by
  have hm : '=' ∈ pyStrip l := of_decide_eq_true he
  simp only [parseLines]
  rw [if_pos hm]
  rcases hs : splitChar '=' (pyStrip l) with _ | ⟨a, _ | ⟨b, _ | ⟨x, xs⟩⟩⟩
  all_goals try (
    have hx : parseEntry l = none := by unfold parseEntry; rw [hs]
    rw [hx] at hp
    exact Option.noConfusion hp)
  have hpe : parseEntry l = Option.map (fun v => (a, v)) (pyIntOfChars b) := by
    unfold parseEntry
    rw [hs]
  rw [hpe, Option.map_eq_some'] at hp
  obtain ⟨v, hv, hfv⟩ := hp
  simp only [Prod.mk.injEq] at hfv
  obtain ⟨rfl, rfl⟩ := hfv
  change (match pyIntOfChars b with
    | some v => parseLines ls (dictInsert acc a v)
    | none => acc) = parseLines ls (dictInsert acc a v)
  rw [hv]

/-- A line that has an equals sign but does not parse raises, and the
caught exception makes the loader return the entries accumulated so
far. -/
lemma parseLines_cons_bad (l : List Char) (ls : List (List Char))
    (acc : List (List Char × Int))
    (he : hasEq l = true) (hp : parseEntry l = none) :
    parseLines (l :: ls) acc = acc := by
  have hm : '=' ∈ pyStrip l := of_decide_eq_true he
  simp only [parseLines]
  rw [if_pos hm]
  rcases hs : splitChar '=' (pyStrip l) with _ | ⟨a, _ | ⟨b, _ | ⟨x, xs⟩⟩⟩
  all_goals try rfl
  have hpe : parseEntry l = Option.map (fun v => (a, v)) (pyIntOfChars b) := by
    unfold parseEntry
    rw [hs]
  rw [hpe, Option.map_eq_none'] at hp
  change (match pyIntOfChars b with
    | some v => parseLines ls (dictInsert acc a v)
    | none => acc) = acc
  rw [hp]

/-- A line without an equals sign is skipped silently. -/
lemma parseLines_cons_skip (l : List Char) (ls : List (List Char))
    (acc : List (List Char × Int)) (he : hasEq l = false) :
    parseLines (l :: ls) acc = parseLines ls acc := by
  have hm : ¬ ('=' ∈ pyStrip l) := of_decide_eq_false he
  simp only [parseLines]
  rw [if_neg hm]

/-- C1 as stated is false: with the malformed `backend=abc` line first,
the exception aborts the parse and the well-formed `frontend=123` entry
is lost — the result is the empty mapping, not the well-formed entry. -/
theorem c1_counterexample :
    get_running_pids (some "backend=abc\nfrontend=123\n".data) = [] ∧
    (frontendName, (123 : Int)) ∉ get_running_pids (some "backend=abc\nfrontend=123\n".data) := by
  constructor
  · decide
  · decide

/-- C1 amended: with one well-formed and one malformed line, a malformed
line without `=` is skipped silently in either order and exactly the
well-formed entry is returned; a malformed line containing `=` keeps the
well-formed entry only when the well-formed line comes first — when the
malformed line comes first the parse aborts and the mapping is empty. -/
theorem c1_theorem (c1 c2 w m n : List Char) (p : Int)
    (h1 : splitChar '\n' c1 = [w, m]) (h2 : splitChar '\n' c2 = [m, w])
    (hw : hasEq w = true) (hpw : parseEntry w = some (n, p)) :
    (hasEq m = false →
      get_running_pids (some c1) = [(n, p)] ∧ get_running_pids (some c2) = [(n, p)]) ∧
    (hasEq m = true → parseEntry m = none →
      get_running_pids (some c1) = [(n, p)] ∧ get_running_pids (some c2) = []) := by
  have g1 : get_running_pids (some c1) = parseLines [w, m] [] := by
    simp [get_running_pids, h1]
  have g2 : get_running_pids (some c2) = parseLines [m, w] [] := by
    simp [get_running_pids, h2]
  constructor
  · intro hm
    constructor
    · rw [g1, parseLines_cons_good w [m] [] n p hw hpw, parseLines_cons_skip m [] _ hm]
      rfl
    · rw [g2, parseLines_cons_skip m [w] [] hm, parseLines_cons_good w [] [] n p hw hpw]
      rfl
  · intro hm hpm
    constructor
    · rw [g1, parseLines_cons_good w [m] [] n p hw hpw,
        parseLines_cons_bad m [] _ hm hpm]
      rfl
    · rw [g2, parseLines_cons_bad m [w] [] hm hpm]

/-- Witness for the amended C1: concrete contents in both orders. -/
theorem c1_witness :
    get_running_pids (some "frontend=123\nbackend=abc".data) = [(frontendName, 123)] ∧
    get_running_pids (some "backend=abc\nfrontend=123".data) = [] :=
  ( c1_theorem "frontend=123\nbackend=abc".data "backend=abc\nfrontend=123".data
    "frontend=123".data "backend=abc".data frontendName 123
    (by decide) (by decide) (by decide) (by decide)).2 (by decide) (by decide)

/-- One serialized line of the new file contents equals the cumulative
prefix notion used below. -/
lemma save_pids_cons (e : List Char × Int) (l : List (List Char × Int)) :
    save_pids (e :: l) = pidLine e.1 e.2 ++ save_pids l := rfl

/-- The in-place write trace: after the truncating open, the observable
states are exactly the line-by-line prefixes of the new contents. -/
lemma writeStates_eq (pids : List (List Char × Int)) :
    ∀ acc, writeStates pids acc =
      (List.range (pids.length + 1)).map (fun k => acc ++ save_pids (pids.take k)) := by
  induction pids with
  | nil =>
    intro acc
    simp [writeStates, save_pids]
  | cons e rest ih =>
    intro acc
    rw [writeStates, ih (acc ++ pidLine e.1 e.2)]
    have hlen : (e :: rest).length + 1 = rest.length + 1 + 1 := by simp
    conv_rhs => rw [hlen, List.range_succ_eq_map, List.map_cons, List.map_map]
    congr 1
    · simp [save_pids]
    · congr 1
      funext k
      simp only [Function.comp_apply, List.take_succ_cons, save_pids_cons,
        List.append_assoc]


/-- C8 as stated is false: `save_pids` opens the state file with mode `w`,
so the truncated empty file is an observable intermediate state that is
neither the previous contents nor the complete new contents. -/
theorem c8_counterexample :
    ¬ (∀ s ∈ saveStates "backend=7\n".data [(backendName, 1)],
        s = "backend=7\n".data ∨ s = save_pids [(backendName, 1)]) := by
  decide

/-- C8 amended: the rewrite is in place, not atomic — the observable file
states around `save_pids` are exactly the previous contents followed by
the line-by-line prefixes of the new contents, from the truncated empty
file up to the complete new contents. -/
theorem c8_theorem (prev : List Char) (pids : List (List Char × Int)) :
    saveStates prev pids =
      prev :: (List.range (pids.length + 1)).map (fun k => save_pids (pids.take k)) := by
  unfold saveStates
  rw [writeStates_eq]
  simp

/-- C2 as stated is false: when no launch succeeds (both ports busy),
`cmd_start` skips `save_pids` and the previous invocation's table
survives on disk instead of being overwritten with the empty mapping. -/
theorem c2_counterexample :
    (cmd_start ⟨[BACKEND_PORT, FRONTEND_PORT], true, true, true, true, 11, 22⟩
        (some "backend=999\n".data)).pids = [] ∧
    (cmd_start ⟨[BACKEND_PORT, FRONTEND_PORT], true, true, true, true, 11, 22⟩
        (some "backend=999\n".data)).file = some "backend=999\n".data ∧
    get_running_pids
      ((cmd_start ⟨[BACKEND_PORT, FRONTEND_PORT], true, true, true, true, 11, 22⟩
        (some "backend=999\n".data)).file) = [(backendName, 999)] := by
  refine ⟨by decide, by decide, by decide⟩

/-- C2 amended: a completed `start` overwrites the table wholesale with
exactly the successful PIDs when at least one launch succeeded and leaves
the file untouched otherwise; `dev` likewise saves exactly the frontend
entry when the frontend launch succeeded and leaves the file untouched
otherwise; and every `stop` that loaded a non-empty table deletes the
state file regardless of the individual termination outcomes. -/
theorem c2_theorem (env : StartEnv) (fs : Option (List Char)) (st : OSState)
    (hf : (cmd_start env fs).fatal = false)
    (hs : get_running_pids fs ≠ []) :
    ((cmd_start env fs).file =
      if (cmd_start env fs).pids.isEmpty then fs
      else some (save_pids (cmd_start env fs).pids)) ∧
    ((cmd_dev env fs).file =
      if (cmd_dev env fs).pids.isEmpty then fs
      else some (save_pids (cmd_dev env fs).pids)) ∧
    (cmd_stop st fs).2 = none := by
  refine ⟨?_, ?_, ?_⟩
  · by_cases hb : (start_backend env).fatal
    · simp [cmd_start, hb]
    · simp [cmd_start, hb]
  · simp [cmd_dev]
  · have hne : (get_running_pids fs).isEmpty = false := by
      cases hq : get_running_pids fs with
      | nil => exact absurd hq hs
      | cons e rest => rfl
    simp [cmd_stop, hne]

/-- Witness for the amended C2: both launches succeed over a non-empty
previous table; the file is overwritten, `dev` saves the frontend entry,
and `stop` deletes the file. -/
theorem c2_witness :
    ((cmd_start ⟨[], true, true, true, true, 11, 22⟩ (some "backend=999\n".data)).file =
      if (cmd_start ⟨[], true, true, true, true, 11, 22⟩ (some "backend=999\n".data)).pids.isEmpty
      then some "backend=999\n".data
      else some (save_pids
        (cmd_start ⟨[], true, true, true, true, 11, 22⟩ (some "backend=999\n".data)).pids)) ∧
    ((cmd_dev ⟨[], true, true, true, true, 11, 22⟩ (some "backend=999\n".data)).file =
      if (cmd_dev ⟨[], true, true, true, true, 11, 22⟩ (some "backend=999\n".data)).pids.isEmpty
      then some "backend=999\n".data
      else some (save_pids
        (cmd_dev ⟨[], true, true, true, true, 11, 22⟩ (some "backend=999\n".data)).pids)) ∧
    (cmd_stop ⟨[11, 22], [], [], []⟩ (some "backend=999\n".data)).2 = none :=
  c2_theorem ⟨[], true, true, true, true, 11, 22⟩ (some "backend=999\n".data)
    ⟨[11, 22], [], [], []⟩ (by decide) (by decide)

/-- The frontend launch is always attempted: its opening report is in the
events whatever the environment. -/
lemma frontendAttempt_mem (env : StartEnv) :
    Event.frontendAttempt ∈ (start_frontend env).events := by
  unfold start_frontend
  split_ifs <;> simp

/-- The frontend launch never spawns the backend. -/
lemma backendSpawn_not_mem_frontend (env : StartEnv) :
    Event.backendSpawn ∉ (start_frontend env).events := by
  unfold start_frontend
  split_ifs <;> simp

/-- C7: with the backend port occupied, `start_backend` reports the
conflict and returns no PID without spawning, and `cmd_start` still
attempts the frontend launch; the backend never enters the saved
mapping. -/
theorem c7_theorem (env : StartEnv) (fs : Option (List Char))
    (h : is_port_in_use env.busyPorts BACKEND_PORT = true) :
    (start_backend env).pid = none ∧
    Event.backendPortConflict ∈ (cmd_start env fs).events ∧
    Event.backendSpawn ∉ (cmd_start env fs).events ∧
    Event.frontendAttempt ∈ (cmd_start env fs).events ∧
    lookupD (cmd_start env fs).pids backendName = none := by
  have hb : start_backend env = ⟨none, [.backendAttempt, .backendPortConflict], false⟩ := by
    unfold start_backend
    rw [if_pos h]
  have hfa := frontendAttempt_mem env
  have hns := backendSpawn_not_mem_frontend env
  have hnb : frontendName ≠ backendName := by decide
  refine ⟨by rw [hb], ?_, ?_, ?_, ?_⟩
  · simp [cmd_start, hb]
  · simp [cmd_start, hb]
    intro hcon
    exact absurd hcon hns
  · simp [cmd_start, hb]
    exact hfa
  · cases hfp : (start_frontend env).pid with
    | none => simp [cmd_start, hb, hfp, lookupD]
    | some p => simp [cmd_start, hb, hfp, dictInsert, lookupD, hnb]

/-- Witness for C7: port 3001 busy, frontend free and healthy. -/
theorem c7_witness :
    (start_backend ⟨[3001], true, true, true, true, 5, 7⟩).pid = none ∧
    Event.backendPortConflict ∈ (cmd_start ⟨[3001], true, true, true, true, 5, 7⟩ none).events ∧
    Event.backendSpawn ∉ (cmd_start ⟨[3001], true, true, true, true, 5, 7⟩ none).events ∧
    Event.frontendAttempt ∈ (cmd_start ⟨[3001], true, true, true, true, 5, 7⟩ none).events ∧
    lookupD (cmd_start ⟨[3001], true, true, true, true, 5, 7⟩ none).pids backendName = none :=
  c7_theorem ⟨[3001], true, true, true, true, 5, 7⟩ none (by decide)

/-- splitChar leaves a separator-free list whole. -/
lemma splitChar_not_mem (c : Char) (l : List Char) (h : c ∉ l) : splitChar c l = [l] := by
  induction l with
  | nil => rfl
  | cons x xs ih =>
    have hx : x ≠ c := by
      intro he
      exact h (by simp [he])
    have hxs : c ∉ xs := fun hm => h (List.mem_cons_of_mem _ hm)
    simp [splitChar, hx, ih hxs]

/-- splitChar peels off the first separator-free piece. -/
lemma splitChar_append (c : Char) (s rest : List Char) (h : c ∉ s) :
    splitChar c (s ++ c :: rest) = s :: splitChar c rest := by
  induction s with
  | nil => simp [splitChar]
  | cons x s ih =>
    have hx : x ≠ c := by
      intro he
      exact h (by simp [he])
    have hs : c ∉ s := fun hm => h (by simp [hm])
    simp [splitChar, hx, ih hs]

/-- Every character the digit expansion produces is a digit character. -/
lemma natReprAux_digitChar (fuel : Nat) :
    ∀ n, ∀ c ∈ natReprAux fuel n, ∃ d, d < 10 ∧ c = digitChar d := by
  induction fuel with
  | zero =>
    intro n c hc
    simp [natReprAux] at hc
    exact ⟨n % 10, Nat.mod_lt _ (by omega), hc⟩
  | succ fuel ih =>
    intro n c hc
    by_cases h : n < 10
    · simp [natReprAux, h] at hc
      exact ⟨n, h, hc⟩
    · simp [natReprAux, h] at hc
      rcases hc with hc | hc
      · exact ih (n / 10) c hc
      · exact ⟨n % 10, Nat.mod_lt _ (by omega), hc⟩

/-- Character-level facts about decimal digit characters. -/
lemma digitChar_facts (d : Nat) (h : d < 10) :
    (digitChar d).isDigit = true ∧ isWS (digitChar d) = false ∧ digitChar d ≠ '=' ∧
    digitChar d ≠ '\n' ∧ digitChar d ≠ '+' ∧ digitChar d ≠ '-' ∧ digitChar d ≠ '_' := by
  interval_cases d <;> exact (by decide)

/-- A digit character carries its digit value. -/
lemma digitVal_digitChar (d : Nat) (h : d < 10) : digitVal (digitChar d) = d := by
  interval_cases d <;> decide

/-- The digit expansion never produces the empty list. -/
lemma natReprAux_ne_nil (fuel n : Nat) : natReprAux fuel n ≠ [] := by
  cases fuel with
  | zero => simp [natReprAux]
  | succ fuel =>
    by_cases h : n < 10 <;> simp [natReprAux, h]

/-- The decimal representation is nonempty. -/
lemma natRepr_ne_nil (n : Nat) : natRepr n ≠ [] := by
  unfold natRepr
  exact natReprAux_ne_nil n n

/-- Character-level facts about the decimal representation. -/
lemma natRepr_facts (n : Nat) : ∀ c ∈ natRepr n,
    c.isDigit = true ∧ isWS c = false ∧ c ≠ '=' ∧ c ≠ '\n' ∧ c ≠ '+' ∧ c ≠ '-' ∧ c ≠ '_' := by
  intro c hc
  obtain ⟨d, hd, rfl⟩ := natReprAux_digitChar n n c hc
  exact digitChar_facts d hd

/-- Folding the digit accumulator over the expansion recovers the
number, given enough fuel. -/
lemma natReprAux_foldl (fuel : Nat) :
    ∀ n, n ≤ fuel → (natReprAux fuel n).foldl digitFold 0 = n := by
  induction fuel with
  | zero =>
    intro n hn
    obtain rfl : n = 0 := by omega
    decide
  | succ fuel ih =>
    intro n hn
    by_cases h : n < 10
    · have hf := digitChar_facts n h
      simp [natReprAux, h, digitFold, hf.2.2.2.2.2.2, digitVal_digitChar n h]
    · have hdiv : n / 10 ≤ fuel := by omega
      have h10 : n % 10 < 10 := by omega
      have hf := digitChar_facts _ h10
      simp only [natReprAux, if_neg h]
      rw [List.foldl_append, ih (n / 10) hdiv]
      simp [digitFold, hf.2.2.2.2.2.2, digitVal_digitChar _ h10]
      omega

/-- Folding the digit accumulator over the decimal representation
recovers the number. -/
lemma natRepr_foldl (n : Nat) : (natRepr n).foldl digitFold 0 = n := by
  unfold natRepr
  exact natReprAux_foldl n n le_rfl

/-- A list without underscores passes the adjacent-underscore check. -/
lemma noDoubleUnderscore_of (l : List Char) (h : ∀ c ∈ l, c ≠ '_') :
    noDoubleUnderscore l = true := by
  induction l with
  | nil => rfl
  | cons c1 tl ih =>
    cases tl with
    | nil => rfl
    | cons c2 rest =>
      have h1 : c1 ≠ '_' := h c1 (by simp)
      have h2 := ih (fun c hc => h c (List.mem_cons_of_mem _ hc))
      simp [noDoubleUnderscore, h1, h2]

/-- A nonempty all-digit list is a valid Python digit string. -/
lemma pyDigitsOk_of_digits (l : List Char) (hne : l ≠ []) (h : ∀ c ∈ l, c.isDigit = true) :
    pyDigitsOk l = true := by
  have hu : ∀ c ∈ l, c ≠ '_' := by
    intro c hc he
    have hd := h c hc
    rw [he] at hd
    exact absurd hd (by decide)
  simp only [pyDigitsOk, Bool.and_eq_true]
  refine ⟨⟨⟨?_, ?_⟩, ?_⟩, ?_⟩
  · cases l with
    | nil => exact absurd rfl hne
    | cons c rest => exact h c (by simp)
  · rw [List.getLast?_eq_getLast_of_ne_nil hne]
    exact h _ (List.getLast_mem hne)
  · rw [List.all_eq_true]
    intro c hc
    simp [h c hc]
  · exact noDoubleUnderscore_of l hu

/-- dropWhile does nothing when the predicate fails everywhere. -/
lemma dropWhile_of_head (p : Char → Bool) (l : List Char) (h : ∀ c ∈ l, p c = false) :
    l.dropWhile p = l := by
  cases l with
  | nil => rfl
  | cons x xs => simp [List.dropWhile_cons, h x (by simp)]

/-- Stripping a whitespace-free list is the identity. -/
lemma pyStrip_id (l : List Char) (h : ∀ c ∈ l, isWS c = false) : pyStrip l = l := by
  unfold pyStrip
  rw [dropWhile_of_head _ _ h,
    dropWhile_of_head _ _ (fun c hc => h c (List.mem_reverse.mp hc)),
    List.reverse_reverse]

/-- Python's integer parse inverts the decimal representation of a
natural number. -/
lemma pyInt_natRepr (m : Nat) : pyIntOfChars (natRepr m) = some (m : Int) := by
  have hd := natRepr_facts m
  have hs : pyStrip (natRepr m) = natRepr m := pyStrip_id _ (fun c hc => (hd c hc).2.1)
  unfold pyIntOfChars
  rw [hs]
  cases hn : natRepr m with
  | nil => exact absurd hn (natRepr_ne_nil m)
  | cons c rest =>
    have hcmem : c ∈ natRepr m := by
      rw [hn]
      simp
    have hcf := hd c hcmem
    show (if c = '+' then
        if pyDigitsOk rest then some ((rest.foldl digitFold 0 : Nat) : Int) else none
      else if c = '-' then
        if pyDigitsOk rest then some (-((rest.foldl digitFold 0 : Nat) : Int)) else none
      else if pyDigitsOk (c :: rest) then some (((c :: rest).foldl digitFold 0 : Nat) : Int)
      else none) = some (m : Int)
    rw [if_neg hcf.2.2.2.2.1, if_neg hcf.2.2.2.2.2.1, if_pos]
    · rw [← hn, natRepr_foldl]
    · apply pyDigitsOk_of_digits _ (by simp)
      intro x hx
      have : x ∈ natRepr m := by
        rw [hn]
        exact hx
      exact (hd x this).1

/-- Python's integer parse inverts the serialization of a positive PID. -/
lemma intRepr_pyInt (v : Int) (hv : 0 < v) : pyIntOfChars (intRepr v) = some v := by
  unfold intRepr
  rw [if_neg (by omega : ¬ v < 0), pyInt_natRepr]
  rw [Int.toNat_of_nonneg (le_of_lt hv)]

/-- Character facts about the backend service name. -/
lemma backendName_facts : ∀ c ∈ backendName, isWS c = false ∧ c ≠ '=' ∧ c ≠ '\n' := by
  decide

/-- Character facts about the frontend service name. -/
lemma frontendName_facts : ∀ c ∈ frontendName, isWS c = false ∧ c ≠ '=' ∧ c ≠ '\n' := by
  decide

/-- A serialized line body parses back to its entry. -/
lemma entryBody_parse (name : List Char) (v : Int)
    (hname : name = backendName ∨ name = frontendName) (hv : 0 < v) :
    hasEq (entryBody name v) = true ∧ parseEntry (entryBody name v) = some (name, v) := by
  have hnf : ∀ c ∈ name, isWS c = false ∧ c ≠ '=' ∧ c ≠ '\n' := by
    rcases hname with rfl | rfl
    · exact backendName_facts
    · exact frontendName_facts
  have hir : intRepr v = natRepr v.toNat := by
    unfold intRepr
    rw [if_neg (by omega : ¬ v < 0)]
  have hdig := natRepr_facts v.toNat
  have hnoWS : ∀ c ∈ entryBody name v, isWS c = false := by
    intro c hc
    unfold entryBody at hc
    rcases List.mem_append.mp hc with hc | hc
    · exact (hnf c hc).1
    · rcases List.mem_cons.mp hc with rfl | hc
      · decide
      · rw [hir] at hc
        exact (hdig c hc).2.1
  have hstrip : pyStrip (entryBody name v) = entryBody name v := pyStrip_id _ hnoWS
  have hneq : '=' ∉ name := by
    intro hm
    exact (hnf '=' hm).2.1 rfl
  have hneq2 : '=' ∉ intRepr v := by
    rw [hir]
    intro hm
    exact (hdig '=' hm).2.2.1 rfl
  have hsplit : splitChar '=' (entryBody name v) = [name, intRepr v] := by
    unfold entryBody
    rw [splitChar_append '=' name (intRepr v) hneq, splitChar_not_mem '=' (intRepr v) hneq2]
  constructor
  · unfold hasEq
    rw [hstrip]
    apply decide_eq_true
    unfold entryBody
    simp
  · unfold parseEntry
    rw [hstrip, hsplit]
    show Option.map (fun w => (name, w)) (pyIntOfChars (intRepr v)) = some (name, v)
    rw [intRepr_pyInt v hv]
    rfl

/-- Inserting a fresh key appends it. -/
lemma dictInsert_append (acc : List (List Char × Int)) (k : List Char) (v : Int)
    (h : k ∉ acc.map Prod.fst) : dictInsert acc k v = acc ++ [(k, v)] := by
  induction acc with
  | nil => rfl
  | cons e rest ih =>
    have h1 : e.1 ≠ k := by
      intro he
      exact h (by simp [he])
    have h2 : k ∉ rest.map Prod.fst := fun hm => h (by simp [hm])
    obtain ⟨k1, v1⟩ := e
    simp only [List.map_cons] at h
    simp [dictInsert, h1, ih h2]

/-- Parsing the serialized bodies of a well-named, positive,
duplicate-free mapping appends exactly that mapping. -/
lemma parseLines_bodies (pids : List (List Char × Int)) :
    ∀ acc, (∀ e ∈ pids, (e.1 = backendName ∨ e.1 = frontendName) ∧ 0 < e.2) →
    ((pids.map Prod.fst).Nodup) →
    (∀ e ∈ pids, e.1 ∉ acc.map Prod.fst) →
    parseLines ((pids.map fun e => entryBody e.1 e.2) ++ [[]]) acc = acc ++ pids := by
  induction pids with
  | nil =>
    intro acc _ _ _
    have hq : hasEq ([] : List Char) = false := by decide
    rw [List.map_nil, List.nil_append, parseLines_cons_skip _ _ _ hq]
    simp [parseLines]
  | cons e rest ih =>
    intro acc hgood hnodup hdisj
    obtain ⟨n, v⟩ := e
    have he := hgood (n, v) (by simp)
    obtain ⟨hq, hsome⟩ := entryBody_parse n v he.1 he.2
    rw [List.map_cons, List.cons_append, parseLines_cons_good _ _ _ n v hq hsome]
    have hnotin : n ∉ acc.map Prod.fst := hdisj (n, v) (by simp)
    rw [dictInsert_append acc n v hnotin]
    have hnodup2 : (rest.map Prod.fst).Nodup := by
      simp only [List.map_cons, List.nodup_cons] at hnodup
      exact hnodup.2
    have hnrest : n ∉ rest.map Prod.fst := by
      simp only [List.map_cons, List.nodup_cons] at hnodup
      exact hnodup.1
    have hgood2 : ∀ e ∈ rest, (e.1 = backendName ∨ e.1 = frontendName) ∧ 0 < e.2 :=
      fun e he2 => hgood e (by simp [he2])
    have hdisj2 : ∀ e ∈ rest, e.1 ∉ (acc ++ [(n, v)]).map Prod.fst := by
      intro e2 he2 hmem
      rw [List.map_append] at hmem
      rcases List.mem_append.mp hmem with hm | hm
      · exact hdisj e2 (by simp [he2]) hm
      · simp at hm
        exact hnrest (hm ▸ List.mem_map_of_mem Prod.fst he2)
    rw [ih (acc ++ [(n, v)]) hgood2 hnodup2 hdisj2]
    simp

/-- Splitting the serialized table on newlines yields the line bodies
followed by one empty final piece. -/
lemma splitChar_save (pids : List (List Char × Int))
    (h : ∀ e ∈ pids, (e.1 = backendName ∨ e.1 = frontendName) ∧ 0 < e.2) :
    splitChar '\n' (save_pids pids) = (pids.map fun e => entryBody e.1 e.2) ++ [[]] := by
  induction pids with
  | nil => rfl
  | cons e rest ih =>
    obtain ⟨n, v⟩ := e
    have he := h (n, v) (by simp)
    have hir : intRepr v = natRepr v.toNat := by
      unfold intRepr
      rw [if_neg (by omega : ¬ v < 0)]
    have hnl : '\n' ∉ entryBody n v := by
      intro hm
      unfold entryBody at hm
      rcases List.mem_append.mp hm with hm | hm
      · rcases he.1 with hb | hb
        · have hb2 : n = backendName := hb
          rw [hb2] at hm
          exact (backendName_facts '\n' hm).2.2 rfl
        · have hb2 : n = frontendName := hb
          rw [hb2] at hm
          exact (frontendName_facts '\n' hm).2.2 rfl
      · rcases List.mem_cons.mp hm with hm | hm
        · exact absurd hm (by decide)
        · rw [hir] at hm
          exact (natRepr_facts _ '\n' hm).2.2.2.1 rfl
    have hb : save_pids ((n, v) :: rest) = entryBody n v ++ '\n' :: save_pids rest := by
      rw [save_pids_cons]
      unfold pidLine entryBody
      simp
    rw [hb, splitChar_append '\n' (entryBody n v) (save_pids rest) hnl,
      ih (fun e2 he2 => h e2 (by simp [he2]))]
    simp

/-- C3: saving any mapping over the fixed service-name set with positive
PIDs and then loading it returns the same mapping (round-trip law). -/
theorem c3_theorem (pids : List (List Char × Int))
    (h1 : ∀ e ∈ pids, (e.1 = backendName ∨ e.1 = frontendName) ∧ 0 < e.2)
    (h2 : (pids.map Prod.fst).Nodup) :
    get_running_pids (some (save_pids pids)) = pids := by
  show parseLines (splitChar '\n' (save_pids pids)) [] = pids
  rw [splitChar_save pids h1, parseLines_bodies pids [] h1 h2 (by simp)]
  simp

/-- Witness for C3: the concrete two-service mapping round-trips. -/
theorem c3_witness :
    get_running_pids (some (save_pids [(backendName, 12), (frontendName, 34)])) =
      [(backendName, 12), (frontendName, 34)] :=
  c3_theorem [(backendName, 12), (frontendName, 34)] (by decide) (by decide)

/-- The loop of `get_running_pids` agrees with the claimed description:
scan stops at the first `=`-bearing unparseable line, `=`-free lines are
skipped, parsed entries accumulate in order. -/
lemma parseLines_eq_spec (ls : List (List Char)) :
    ∀ acc, parseLines ls acc =
      ((ls.takeWhile lineOK).filterMap lineEntry).foldl (fun d e => dictInsert d e.1 e.2) acc := by
  induction ls with
  | nil =>
    intro acc
    rfl
  | cons l ls ih =>
    intro acc
    cases he : hasEq l with
    | true =>
      cases hp : parseEntry l with
      | none =>
        rw [parseLines_cons_bad l ls acc he hp]
        have hok : lineOK l = false := by simp [lineOK, he, hp]
        simp [List.takeWhile_cons, hok]
      | some e =>
        obtain ⟨n, p⟩ := e
        rw [parseLines_cons_good l ls acc n p he hp]
        have hok : lineOK l = true := by simp [lineOK, hp]
        have hle : lineEntry l = some (n, p) := by simp [lineEntry, he, hp]
        rw [ih (dictInsert acc n p)]
        simp [List.takeWhile_cons, hok, hle]
    | false =>
      rw [parseLines_cons_skip l ls acc he]
      have hok : lineOK l = true := by simp [lineOK, he]
      have hle : lineEntry l = none := by simp [lineEntry, he]
      rw [ih acc]
      simp [List.takeWhile_cons, hok, hle]

/-- C10: the loader is total and equals the claimed description — every
exception is caught and the entries parsed before the first failing
`=`-bearing line are returned, with `=`-free lines skipped silently. -/
theorem c10_theorem (file : Option (List Char)) : get_running_pids file = specLoad file := by
  cases file with
  | none => rfl
  | some c =>
    show parseLines (splitChar '\n' c) [] = _
    rw [parseLines_eq_spec]
    rfl

